import Mathlib

/-!
Verification development for the `price-watcher` repository.

The repository contains three orchestrator variants:
* `src/price-check.ts` lines 4-50 (no persistence, console evaluation only) — modelled
  as `checkPricesEarly`;
* `src/price-check.ts` lines 159-216 (history file + email alerts) — modelled as
  `checkPrices`;
* `src/unnamed/part_002` (navigation performed outside the per-product `try`) —
  modelled as `checkPricesPart002`.

Pure fragments (price-text normalisation, `parseFloat` comparison, ledger append,
JSON-file load/save) are embedded as executable Lean functions; the per-product
loops become folds over explicit run states, with the outcomes of the external
`await`s (navigation, selector wait, text extraction, file I/O) supplied as an
environment.
-/

namespace PriceWatcher

/-! ## Price Text Parser (price-check.ts lines 179-190 / 24-31) -/

/-- JavaScript `s || d` where `s : string | null`: `null` and `""` are falsy. -/
def jsOrDefault (s : Option String) (d : String) : String :=
  match s with
  | none => d
  | some t => if t = "" then d else t

/-- `str.replace(/\./g, "")`. -/
def stripDots (s : String) : String :=
  ⟨s.data.filter (fun c => c ≠ '.')⟩

/-- `str.replace(/,/g, "")`. -/
def stripCommas (s : String) : String :=
  ⟨s.data.filter (fun c => c ≠ ',')⟩

/-- Lines 183-187: `wholeClean = (whole || "0").replace(/\./g, "")`,
`fractionClean = fraction || "0"`, `priceString = wholeClean + "." + fractionClean`. -/
def normalize (whole fraction : Option String) : String :=
  stripDots (jsOrDefault whole "0") ++ "." ++ jsOrDefault fraction "0"

/-- Modelled from the spec's words for claim comparison (§4.1): strip `.` from the
whole part, default a *missing* part to `"0"`, concatenate. `missing` is read as
the fragment being absent (`none`). -/
def normalizeSpec (whole fraction : Option String) : String :=
  stripDots (whole.getD "0") ++ "." ++ fraction.getD "0"

/-- Modelled from the spec's words, amended: a part that is missing *or empty*
defaults to `"0"` (JavaScript falsiness of `""`). -/
def normalizeSpecAmended (whole fraction : Option String) : String :=
  stripDots ((if whole = some "" then none else whole).getD "0") ++ "." ++
    (if fraction = some "" then none else fraction).getD "0"

/-- A JavaScript number as produced by `parseFloat`. -/
inductive JsNum where
  | nan
  | posInf
  | negInf
  | num (q : ℚ)
  deriving DecidableEq

/-- Digit-run accumulator: value and number of digits consumed. -/
def readDigits : List Char → Nat → Nat → Nat × Nat × List Char
  | c :: cs, acc, len =>
      if c.isDigit then readDigits cs (acc * 10 + (c.toNat - 48)) (len + 1)
      else (acc, len, c :: cs)
  | [], acc, len => (acc, len, [])

/-- ECMAScript `parseFloat`: skip leading whitespace, optional sign, `Infinity`
literal or decimal literal `d* [. d*] [e [sign] d+]`; the longest valid prefix is
parsed and trailing garbage ignored; `NaN` when no prefix parses. -/
def jsParseFloat (s : String) : JsNum :=
  let l := s.data.dropWhile (fun c => c = ' ' ∨ c = '\t' ∨ c = '\n' ∨ c = '\r')
  let (neg, l) :=
    match l with
    | '-' :: rest => (true, rest)
    | '+' :: rest => (false, rest)
    | _ => (false, l)
  if ['I','n','f','i','n','i','t','y'].isPrefixOf l then
    if neg then JsNum.negInf else JsNum.posInf
  else
    let (ip, ilen, l1) := readDigits l 0 0
    let (fp, flen, l2) :=
      match l1 with
      | '.' :: rest => readDigits rest 0 0
      | _ => (0, 0, l1)
    if ilen = 0 ∧ flen = 0 then JsNum.nan
    else
      let mantissa : ℚ := (ip : ℚ) + (fp : ℚ) / ((10 : ℚ) ^ flen)
      let expo : ℤ :=
        match l2 with
        | 'e' :: rest | 'E' :: rest =>
            let (eneg, r2) :=
              match rest with
              | '-' :: r => (true, r)
              | '+' :: r => (false, r)
              | _ => (false, rest)
            let (ev, elen, _) := readDigits r2 0 0
            if elen = 0 then 0 else if eneg then -(ev : ℤ) else (ev : ℤ)
        | _ => 0
      let q := mantissa * (10 : ℚ) ^ expo
      JsNum.num (if neg then -q else q)

/-- JavaScript `x <= t` where `x` may be `NaN` or infinite: any comparison with
`NaN` is false. -/
def jsLe (x : JsNum) (t : ℚ) : Bool :=
  match x with
  | JsNum.nan => false
  | JsNum.posInf => false
  | JsNum.negInf => true
  | JsNum.num v => v ≤ t

/-- Line 199 (and lines 37-38 of the early variant):
`product.targetPrice !== undefined && priceNumber <= product.targetPrice`. -/
def alertCondition (priceNumber : JsNum) (targetPrice : Option ℚ) : Bool :=
  match targetPrice with
  | none => false
  | some t => jsLe priceNumber t

/-! ## The `^\d+\.\d+$` pattern, as a four-state DFA. -/

/-- DFA transition: state 0 start, 1 digits read, 2 dot read, 3 dot+digits read
(accepting), 4 reject sink. -/
def decimalStep (st : Nat) (c : Char) : Nat :=
  if st = 0 then (if c.isDigit then 1 else 4)
  else if st = 1 then (if c.isDigit then 1 else if c = '.' then 2 else 4)
  else if st = 2 then (if c.isDigit then 3 else 4)
  else if st = 3 then (if c.isDigit then 3 else 4)
  else 4

/-- `s` matches `^\d+\.\d+$`. -/
def matchesDecimal (s : String) : Bool :=
  s.data.foldl decimalStep 0 = 3

/-! ## History Store data model (part_003 / price-check.ts lines 77-115) -/

/-- One ledger record: `{ timestamp: ISO string, price: decimal string }`. -/
structure Obs where
  timestamp : String
  price : String
  deriving DecidableEq

/-- The in-memory ledger object: product name → ordered observation sequence,
in property order.  A JavaScript object never holds a duplicate key. -/
abbrev Ledger := List (String × List Obs)

def ledgerKeys (L : Ledger) : List String := L.map Prod.fst

/-- `history[name]`, reading `undefined` (key absent) as the empty sequence. -/
def findSeq : Ledger → String → List Obs
  | [], _ => []
  | (k, v) :: rest, name => if k = name then v else findSeq rest name

/-- Lines 103-111 of `logPrice`: `if (!history[name]) history[name] = [];
history[name].push(obs)`.  An existing key keeps its place; a new key is added at
the end (JavaScript property-insertion order for string keys). -/
def appendObs : Ledger → String → Obs → Ledger
  | [], name, o => [(name, [o])]
  | (k, v) :: rest, name, o =>
      if k = name then (k, v ++ [o]) :: rest
      else (k, v) :: appendObs rest name o

/-! ## JSON serialisation, `JSON.stringify(history, null, 2)` (line 94)

The ledger shape only contains objects, arrays and strings, so the embedding
implements exactly the ECMAScript serialisation of that shape: two-space
indentation, `QuoteJSONString` escaping. -/

def lbrace : Char := '\x7b'
def rbrace : Char := '\x7d'

def hexDigitChar (n : Nat) : Char :=
  if n < 10 then Char.ofNat (48 + n) else Char.ofNat (87 + n)

/-- `QuoteJSONString` on one character: `\"`, `\\`, the five short escapes for
backspace, tab, newline, form feed, carriage return, `\u00xx` for the remaining
control characters, and every other character verbatim. -/
def escapeChar (c : Char) : List Char :=
  if c = '"' then ['\\', '"']
  else if c = '\\' then ['\\', '\\']
  else if c = Char.ofNat 8 then ['\\', 'b']
  else if c = '\t' then ['\\', 't']
  else if c = '\n' then ['\\', 'n']
  else if c = Char.ofNat 12 then ['\\', 'f']
  else if c = '\r' then ['\\', 'r']
  else if c.toNat < 32 then
    ['\\', 'u', '0', '0', hexDigitChar (c.toNat / 16), hexDigitChar (c.toNat % 16)]
  else [c]

def escapeList : List Char → List Char
  | [] => []
  | c :: cs => escapeChar c ++ escapeList cs

/-- A JSON string literal: `"` escaped-body `"`. -/
def quoteStr (s : String) : List Char :=
  '"' :: (escapeList s.data ++ ['"'])

def nlc : Char := '\n'
def spc : Char := ' '

/-- One observation object at array-item depth (indent 4, fields at indent 6). -/
def obsChars (o : Obs) : List Char :=
  lbrace :: nlc :: spc :: spc :: spc :: spc :: spc :: spc ::
    (quoteStr "timestamp" ++ ':' :: spc :: quoteStr o.timestamp ++
     ',' :: nlc :: spc :: spc :: spc :: spc :: spc :: spc ::
     (quoteStr "price" ++ ':' :: spc :: quoteStr o.price ++
      [nlc, spc, spc, spc, spc, rbrace]))

/-- `,\n    {obs}` for every further array item. -/
def arrTailChars (os : List Obs) : List Char :=
  os.foldr (fun o acc => ',' :: nlc :: spc :: spc :: spc :: spc :: obsChars o ++ acc) []

/-- An observation array at entry depth (indent 2, items at indent 4). -/
def arrChars : List Obs → List Char
  | [] => ['[', ']']
  | o :: rest =>
      '[' :: nlc :: spc :: spc :: spc :: spc :: (obsChars o ++ arrTailChars rest ++ [nlc, spc, spc, ']'])

/-- `"name": [...]`. -/
def entryChars (e : String × List Obs) : List Char :=
  quoteStr e.1 ++ ':' :: spc :: arrChars e.2

/-- `,\n  "name": [...]` for every further entry. -/
def ledTailChars (es : Ledger) : List Char :=
  es.foldr (fun e acc => ',' :: nlc :: spc :: spc :: entryChars e ++ acc) []

def ledgerChars : Ledger → List Char
  | [] => [lbrace, rbrace]
  | e :: rest => lbrace :: nlc :: spc :: spc :: (entryChars e ++ ledTailChars rest ++ [nlc, rbrace])

/-- `JSON.stringify(history, null, 2)`. -/
def stringifyLedger (L : Ledger) : String :=
  String.mk (ledgerChars L)

/-! ## JSON parsing, `JSON.parse` (line 88) restricted to the ledger shape.

`JSON.parse` of a well-formed ledger document; any input the shape-directed
parser rejects is one on which the original either throws or yields a value
outside the ledger type. -/

def isWsChar (c : Char) : Bool := c = ' ' ∨ c = '\n' ∨ c = '\t' ∨ c = '\r'

def skipWs : List Char → List Char
  | [] => []
  | c :: rest => if isWsChar c then skipWs rest else c :: rest

def hexVal (c : Char) : Option Nat :=
  if '0' ≤ c ∧ c ≤ '9' then some (c.toNat - 48)
  else if 'a' ≤ c ∧ c ≤ 'f' then some (c.toNat - 87)
  else if 'A' ≤ c ∧ c ≤ 'F' then some (c.toNat - 55)
  else none

/-- A `\uXXXX` code unit as a character; a lone surrogate has no scalar value. -/
def mkUnicode (n : Nat) : Option Char :=
  if n < 55296 ∨ 57344 ≤ n then some (Char.ofNat n) else none

/-- The two-character escapes accepted inside a JSON string. -/
def escCharInv (e : Char) : Option Char :=
  if e = '"' then some '"'
  else if e = '\\' then some '\\'
  else if e = '/' then some '/'
  else if e = 'b' then some (Char.ofNat 8)
  else if e = 'f' then some (Char.ofNat 12)
  else if e = 'n' then some '\n'
  else if e = 'r' then some '\r'
  else if e = 't' then some '\t'
  else none

/-- Body of a JSON string after the opening quote; raw control characters are
rejected as in `JSON.parse`. -/
def parseStringBody : List Char → Option (List Char × List Char)
  | [] => none
  | c :: rest =>
    if c = '"' then some ([], rest)
    else if c = '\\' then
      match rest with
      | [] => none
      | e :: rest2 =>
        if e = 'u' then
          match rest2 with
          | h1 :: h2 :: h3 :: h4 :: rest3 =>
            match hexVal h1, hexVal h2, hexVal h3, hexVal h4 with
            | some a, some b, some c4, some d =>
              match mkUnicode (((a * 16 + b) * 16 + c4) * 16 + d) with
              | some ch => (parseStringBody rest3).map (fun p => (ch :: p.1, p.2))
              | none => none
            | _, _, _, _ => none
          | _ => none
        else
          match escCharInv e with
          | some ch => (parseStringBody rest2).map (fun p => (ch :: p.1, p.2))
          | none => none
    else if c.toNat < 32 then none
    else (parseStringBody rest).map (fun p => (c :: p.1, p.2))

/-- Expect literal `c` after optional whitespace. -/
def parseLit (c : Char) (l : List Char) : Option (List Char) :=
  match skipWs l with
  | [] => none
  | d :: r => if d = c then some r else none

/-- A JSON string literal after optional whitespace. -/
def parseStr (l : List Char) : Option (List Char × List Char) :=
  match skipWs l with
  | [] => none
  | d :: r => if d = '"' then parseStringBody r else none

/-- One `{ "timestamp": ..., "price": ... }` record. -/
def parseObsItem (l : List Char) : Option (Obs × List Char) := do
  let r ← parseLit lbrace l
  let (k1, r) ← parseStr r
  if k1 = "timestamp".data then
    let r ← parseLit ':' r
    let (ts, r) ← parseStr r
    let r ← parseLit ',' r
    let (k2, r) ← parseStr r
    if k2 = "price".data then
      let r ← parseLit ':' r
      let (pr, r) ← parseStr r
      let r ← parseLit rbrace r
      some (⟨String.mk ts, String.mk pr⟩, r)
    else none
  else none

/-- Remaining items of an observation array: `]` or `, item ...`. -/
def parseObsTail : Nat → List Char → Option (List Obs × List Char)
  | 0, _ => none
  | fuel + 1, l =>
    match parseLit ']' l with
    | some r => some ([], r)
    | none =>
      match parseLit ',' l with
      | none => none
      | some r =>
        match parseObsItem r with
        | none => none
        | some (o, r2) =>
          match parseObsTail fuel r2 with
          | none => none
          | some (os, r3) => some (o :: os, r3)

/-- A whole observation array. -/
def parseObsArr (fuel : Nat) (l : List Char) : Option (List Obs × List Char) :=
  match parseLit '[' l with
  | none => none
  | some r =>
    match parseLit ']' r with
    | some r2 => some ([], r2)
    | none =>
      match parseObsItem r with
      | none => none
      | some (o, r3) =>
        match parseObsTail fuel r3 with
        | none => none
        | some (os, r4) => some (o :: os, r4)

/-- One `"name": [...]` ledger entry. -/
def parseEntry (fuel : Nat) (l : List Char) : Option ((String × List Obs) × List Char) := do
  let (k, r) ← parseStr l
  let r ← parseLit ':' r
  let (os, r) ← parseObsArr fuel r
  some ((String.mk k, os), r)

/-- Remaining ledger entries: the closing brace or `, entry ...`.  `afuel` bounds
the nested arrays, the second argument the number of remaining entries. -/
def parseEntriesTail (afuel : Nat) : Nat → List Char → Option (Ledger × List Char)
  | 0, _ => none
  | fuel + 1, l =>
    match parseLit rbrace l with
    | some r => some ([], r)
    | none =>
      match parseLit ',' l with
      | none => none
      | some r =>
        match parseEntry afuel r with
        | none => none
        | some (e, r2) =>
          match parseEntriesTail afuel fuel r2 with
          | none => none
          | some (es, r3) => some (e :: es, r3)

/-- `JSON.parse` of a ledger document; the whole input must be consumed. -/
def parseLedger (s : String) : Option Ledger :=
  let fuel := s.data.length + 1
  match parseLit lbrace s.data with
  | none => none
  | some r =>
    match parseLit rbrace r with
    | some r2 => if skipWs r2 = [] then some [] else none
    | none =>
      match parseEntry fuel r with
      | none => none
      | some (e, r3) =>
        match parseEntriesTail fuel fuel r3 with
        | none => none
        | some (es, r4) => if skipWs r4 = [] then some (e :: es) else none

/-! ## Persistence operations (part_003 / price-check.ts lines 77-115)

The persisted medium is the content of `./logs/price-history.json`, modelled as
`Option String` (`none` = file does not exist). -/

/-- `loadPriceHistory` (lines 80-89): create the file with `"{}"` when absent,
read, `JSON.parse`.  Returns the file state after the call and the parsed ledger,
`none` when `JSON.parse` throws. -/
def loadPriceHistory (file : Option String) : Option String × Option Ledger :=
  match file with
  | none => (some (stringifyLedger []), some [])
  | some s => (some s, parseLedger s)

/-- `savePriceHistory` (lines 92-95): overwrite the file with the serialised
ledger. -/
def savePriceHistory (L : Ledger) : Option String :=
  some (stringifyLedger L)

/-- Result of one `logPrice` call: file state, whether the call returned
normally, and how many load / save round trips it performed. -/
structure LogResult where
  file : Option String
  ok : Bool
  loads : Nat
  saves : Nat

/-- `logPrice` (lines 98-115): load the ledger, append the observation under the
product name, save.  `ioFail` models the file-system call throwing; a parse
failure of the stored document also throws. -/
def logPrice (file : Option String) (ioFail : Bool) (name ts price : String) : LogResult :=
  if ioFail then ⟨file, false, 0, 0⟩
  else
    match loadPriceHistory file with
    | (f1, none) => ⟨f1, false, 0, 0⟩
    | (_, some L) => ⟨savePriceHistory (appendObs L name ⟨ts, price⟩), true, 1, 1⟩

/-! ## Run models -/

/-- `Product` (src/products.ts). -/
structure Product where
  name : String
  url : String
  selector : String
  targetPrice : Option ℚ

/-- What the external page fetcher does for one product of the main variants:
`page.goto` throws, `page.waitForSelector` times out, or the two
`page.textContent` fragments are produced (`none` = element not found). -/
inductive FetchOutcome where
  | gotoFail
  | selectorTimeout
  | fragments (whole fraction : Option String)
  deriving DecidableEq

/-- Whether a fetch outcome reached the extraction step. -/
def FetchOutcome.isFragments : FetchOutcome → Bool
  | .fragments _ _ => true
  | _ => false

/-- Per-product environment for the alerting variant. -/
structure ProductEnv where
  fetch : FetchOutcome
  persistFails : Bool
  timestamp : String

/-- Terminal state of one product (§4.4). -/
inductive Outcome where
  | ok (price : String) (alerted : Bool)
  | failed
  deriving DecidableEq

/-- Observable state of one run of the main variants. -/
structure RunState where
  file : Option String
  loads : Nat
  saves : Nat
  outcomes : List Outcome
  alerts : List String
  closed : Nat
  errored : Bool
  deriving DecidableEq

def initState (file : Option String) : RunState :=
  ⟨file, 0, 0, [], [], 0, false⟩

/-- Loop body of `checkPrices`, price-check.ts lines 167-212.  Everything from
`page.goto` to `sendPriceAlert` sits inside `try { ... } catch`, so every
failure — navigation, selector timeout, and a throwing `logPrice` — yields a
failed product and a normal return.  A `sendPriceAlert` transport failure is
caught inside `sendPriceAlert` itself and is invisible here; `alerts` records
the dispatch attempts. -/
def stepV2 (st : RunState) (item : Product × ProductEnv) : RunState :=
  match item.2.fetch with
  | .gotoFail => { st with outcomes := st.outcomes ++ [.failed] }
  | .selectorTimeout => { st with outcomes := st.outcomes ++ [.failed] }
  | .fragments w f =>
      let priceString := normalize w f
      let priceNumber := jsParseFloat (stripCommas priceString)
      let lr := logPrice st.file item.2.persistFails item.1.name item.2.timestamp priceString
      if lr.ok then
        let alert := alertCondition priceNumber item.1.targetPrice
        { st with file := lr.file, loads := st.loads + lr.loads, saves := st.saves + lr.saves,
                  outcomes := st.outcomes ++ [.ok priceString alert],
                  alerts := st.alerts ++ (if alert then [item.1.name] else []) }
      else
        { st with file := lr.file, loads := st.loads + lr.loads, saves := st.saves + lr.saves,
                  outcomes := st.outcomes ++ [.failed] }

/-- `checkPrices`, price-check.ts lines 159-216.  `newPageFails` models
`chromium.launch` / `browser.newPage` rejecting before the loop; on that path
the function rejects without reaching `browser.close()`.  There is no
`try/finally`, so `browser.close()` runs exactly when the loop completes. -/
def checkPrices (file0 : Option String) (newPageFails : Bool)
    (items : List (Product × ProductEnv)) : RunState :=
  if newPageFails then { initState file0 with errored := true }
  else
    let st := items.foldl stepV2 (initState file0)
    { st with closed := st.closed + 1 }

/-- Loop body of the early `checkPrices`, price-check.ts lines 9-47: same
per-product `try` around `page.goto` .. threshold check, but no history file and
no email; the threshold outcome is only narrated. -/
def stepV1 (st : RunState) (item : Product × FetchOutcome) : RunState :=
  match item.2 with
  | .gotoFail => { st with outcomes := st.outcomes ++ [.failed] }
  | .selectorTimeout => { st with outcomes := st.outcomes ++ [.failed] }
  | .fragments w f =>
      let priceString := normalize w f
      let priceNumber := jsParseFloat (stripCommas priceString)
      { st with outcomes := st.outcomes ++ [.ok priceString (alertCondition priceNumber item.1.targetPrice)] }

/-- Early `checkPrices`, price-check.ts lines 4-50. -/
def checkPricesEarly (newPageFails : Bool) (items : List (Product × FetchOutcome)) : RunState :=
  if newPageFails then { initState none with errored := true }
  else
    let st := items.foldl stepV1 (initState none)
    { st with closed := st.closed + 1 }

/-- Fetcher behaviour for one product of the part_002 variant: `page.goto` is
*outside* the `try`, the `try` only covers `waitForSelector` and
`textContent`. -/
inductive P2Fetch where
  | gotoFail
  | selectorTimeout
  | content (t : Option String)
  deriving DecidableEq

inductive P2Outcome where
  | read (price : Option String)
  | failed
  deriving DecidableEq

structure P2State where
  attempted : List String
  outcomes : List P2Outcome
  closed : Nat
  errored : Bool
  deriving DecidableEq

/-- Loop of the part_002 `checkPrices`: `await page.goto(...)` sits before the
`try`, so a navigation failure rejects the whole async function — the loop stops,
later products are never attempted, and `browser.close()` is never reached. -/
def runPart002 : List (Product × P2Fetch) → P2State → P2State
  | [], st => { st with closed := st.closed + 1 }
  | (p, e) :: rest, st =>
      let st := { st with attempted := st.attempted ++ [p.name] }
      match e with
      | .gotoFail => { st with errored := true }
      | .selectorTimeout => runPart002 rest { st with outcomes := st.outcomes ++ [.failed] }
      | .content t => runPart002 rest { st with outcomes := st.outcomes ++ [.read t] }

/-- part_002 `checkPrices`. -/
def checkPricesPart002 (newPageFails : Bool) (items : List (Product × P2Fetch)) : P2State :=
  if newPageFails then ⟨[], [], 0, true⟩
  else runPart002 items ⟨[], [], 0, false⟩

/-! ## Sample configuration used for concrete evaluations -/

def prodA : Product := ⟨"A", "https://example.com/a", ".price", none⟩
def prodB : Product := ⟨"B", "https://example.com/b", ".price", some 100⟩
def prodC : Product := ⟨"C", "https://example.com/c", ".price", none⟩

/-! ## C3 — threshold evaluator -/

/-- C3: for every observed numeric value `v` and optional target `t`, the alert
condition of line 199 holds iff `t` is present and `v ≤ t` (boundary inclusive);
with no target no value alerts. -/
theorem evaluator_alert_iff :
    (∀ (v : ℚ) (t : Option ℚ),
        (alertCondition (JsNum.num v) t = true ↔ ∃ tp, t = some tp ∧ v ≤ tp)) ∧
    (∀ x : JsNum, alertCondition x none = false) := by
  refine ⟨fun v t => ?_, fun x => rfl⟩
  cases t with
  | none => simp [alertCondition]
  | some tp => simp [alertCondition, jsLe]

/-- Witness: `evaluate(149.99, 150)` alerts. -/
theorem evaluator_alert_iff_witness :
    alertCondition (JsNum.num (149.99 : ℚ)) (some 150) = true :=
  (evaluator_alert_iff.1 149.99 (some 150)).mpr ⟨150, rfl, by norm_num⟩

/-! ## C4 — normalize -/

/-- C4 counterexample: the claim's algorithm substitutes `"0"` only for a
*missing* part, but the code's `whole || "0"` also replaces a present-but-empty
fragment (JavaScript falsiness of `""`): at `whole = some ""` the code produces
`"0.99"` while the claimed algorithm produces `".99"`. -/
theorem normalize_empty_whole_mismatch :
    normalize (some "") (some "99") = "0.99" ∧
    normalizeSpec (some "") (some "99") = ".99" ∧
    normalize (some "") (some "99") ≠ normalizeSpec (some "") (some "99") := by
  refine ⟨by decide, by decide, by decide⟩

/-- C4 amended: `normalize` strips every `.` from the whole part and substitutes
`"0"` for a missing *or empty* part, then concatenates `"{whole}.{fraction}"`;
in particular `normalize("1.234","99") = "1234.99"` and
`normalize(absent,absent) = "0.0"`. -/
theorem normalize_amended :
    (∀ w f, normalize w f = normalizeSpecAmended w f) ∧
    normalize (some "1.234") (some "99") = "1234.99" ∧
    normalize none none = "0.0" := by
  refine ⟨fun w f => ?_, by decide, by decide⟩
  have h : ∀ s : Option String, jsOrDefault s "0" = (if s = some "" then none else s).getD "0" := by
    intro s
    cases s with
    | none => rfl
    | some t =>
      by_cases ht : t = "" <;> simp [jsOrDefault, ht]
  simp [normalize, normalizeSpecAmended, h]

/-! ## C5 — totality and the `^\d+\.\d+$` pattern -/

/-- C5 counterexample: for non-digit fragment text the result does not match
`^\d+\.\d+$` even after grouping cleanup: `normalize(some "x", absent)` gives
`"x.0"`. -/
theorem normalize_pattern_counterexample :
    matchesDecimal (stripCommas (normalize (some "x") none)) = false ∧
    stripCommas (normalize (some "x") none) = "x.0" := by
  refine ⟨by decide, by decide⟩

theorem foldl_decimalStep_one {l : List Char} (h : ∀ c ∈ l, c.isDigit) :
    l.foldl decimalStep 1 = 1 := by
  induction l with
  | nil => rfl
  | cons c cs ih =>
    have hc : c.isDigit := h c (List.mem_cons_self c cs)
    have h1 : decimalStep 1 c = 1 := by simp [decimalStep, hc]
    rw [List.foldl_cons, h1]
    exact ih (fun d hd => h d (List.mem_cons_of_mem c hd))

theorem foldl_decimalStep_three {l : List Char} (h : ∀ c ∈ l, c.isDigit) :
    l.foldl decimalStep 3 = 3 := by
  induction l with
  | nil => rfl
  | cons c cs ih =>
    have hc : c.isDigit := h c (List.mem_cons_self c cs)
    have h1 : decimalStep 3 c = 3 := by simp [decimalStep, hc]
    rw [List.foldl_cons, h1]
    exact ih (fun d hd => h d (List.mem_cons_of_mem c hd))

/-- C5 amended: `normalize` is a total function by construction, and its result
matches `^\d+\.\d+$` after grouping cleanup *provided* the cleaned whole part
and the cleaned fraction part are nonempty digit strings; arbitrary fragment
text (see the counterexample) escapes the pattern. -/
theorem normalize_pattern_amended (w f : Option String)
    (hw : (stripCommas (stripDots (jsOrDefault w "0"))).data ≠ [])
    (hwd : ∀ c ∈ (stripCommas (stripDots (jsOrDefault w "0"))).data, c.isDigit)
    (hf : (stripCommas (jsOrDefault f "0")).data ≠ [])
    (hfd : ∀ c ∈ (stripCommas (jsOrDefault f "0")).data, c.isDigit) :
    matchesDecimal (stripCommas (normalize w f)) = true := by
  set A := stripDots (jsOrDefault w "0") with hA
  set B := jsOrDefault f "0" with hB
  have hdata : (stripCommas (normalize w f)).data =
      (stripCommas A).data ++ '.' :: (stripCommas B).data := by
    show ((A ++ "." ++ B).data.filter (fun c => c ≠ ',')) = _
    simp [String.data_append, stripCommas, List.filter_append]
  simp only [matchesDecimal, hdata]
  obtain ⟨a, as, ha⟩ : ∃ a as, (stripCommas A).data = a :: as := by
    cases hx : (stripCommas A).data with
    | nil => exact absurd hx hw
    | cons a as => exact ⟨a, as, rfl⟩
  obtain ⟨b, bs, hb⟩ : ∃ b bs, (stripCommas B).data = b :: bs := by
    cases hx : (stripCommas B).data with
    | nil => exact absurd hx hf
    | cons b bs => exact ⟨b, bs, rfl⟩
  have had : a.isDigit := hwd a (by rw [ha]; exact List.mem_cons_self a as)
  have has : ∀ c ∈ as, c.isDigit := fun c hc => hwd c (by rw [ha]; exact List.mem_cons_of_mem a hc)
  have hbd : b.isDigit := hfd b (by rw [hb]; exact List.mem_cons_self b bs)
  have hbs : ∀ c ∈ bs, c.isDigit := fun c hc => hfd c (by rw [hb]; exact List.mem_cons_of_mem b hc)
  rw [ha, hb]
  simp only [List.foldl_cons, List.foldl_append, List.foldl_cons]
  have s0 : decimalStep 0 a = 1 := by simp [decimalStep, had]
  have s1 : List.foldl decimalStep 1 as = 1 := foldl_decimalStep_one has
  have s2 : decimalStep 1 '.' = 2 := by decide
  have s3 : decimalStep 2 b = 3 := by simp [decimalStep, hbd]
  have s4 : List.foldl decimalStep 3 bs = 3 := foldl_decimalStep_three hbs
  rw [s0, s1, s2, s3, s4]
  decide

/-- Witness for the amended C5 at `("1.234", "99")`. -/
theorem normalize_pattern_amended_witness :
    matchesDecimal (stripCommas (normalize (some "1.234") (some "99"))) = true :=
  normalize_pattern_amended (some "1.234") (some "99")
    (by decide) (by decide) (by decide) (by decide)

/-! ## C7 — append-only history -/

theorem findSeq_appendObs (L : Ledger) (n : String) (o : Obs) :
    findSeq (appendObs L n o) n = findSeq L n ++ [o] ∧
    ∀ m, m ≠ n → findSeq (appendObs L n o) m = findSeq L m := by
  induction L with
  | nil =>
    constructor
    · simp [appendObs, findSeq]
    · intro m hm
      have hnm : ¬(n = m) := fun h => hm h.symm
      simp [appendObs, findSeq, hnm]
  | cons e rest ih =>
    obtain ⟨k, v⟩ := e
    by_cases hk : k = n
    · subst hk
      constructor
      · simp [appendObs, findSeq]
      · intro m hm
        have hkm : ¬(k = m) := fun h => hm h.symm
        simp [appendObs, findSeq, hkm]
    · constructor
      · simp [appendObs, findSeq, hk, ih.1]
      · intro m hm
        by_cases hkm : k = m
        · simp [appendObs, findSeq, hk, hkm, hm]
        · simp [appendObs, findSeq, hk, hkm, ih.2 m hm]

/-- C7: `appendObs` appends the observation at the end of the named product's
sequence (creating it when absent) and leaves every other product's sequence —
and every previously stored entry — untouched. -/
theorem append_preserves_history (L : Ledger) (n : String) (o : Obs) :
    findSeq (appendObs L n o) n = findSeq L n ++ [o] ∧
    ∀ m, m ≠ n → findSeq (appendObs L n o) m = findSeq L m :=
  findSeq_appendObs L n o

/-- Witness: appending under key "B" leaves key "A" unchanged and extends "B". -/
theorem append_preserves_history_witness :
    findSeq (appendObs [("A", [⟨"t1", "1.00"⟩])] "B" ⟨"t2", "2.00"⟩) "A" = [⟨"t1", "1.00"⟩] :=
  ((append_preserves_history [("A", [⟨"t1", "1.00"⟩])] "B" ⟨"t2", "2.00"⟩).2 "A"
    (by decide)).trans (by decide)

/-! ## JSON round-trip lemmas (shared by C6 and C9) -/

theorem skipWs_nl (l : List Char) : skipWs (nlc :: l) = skipWs l := rfl

theorem skipWs_sp (l : List Char) : skipWs (spc :: l) = skipWs l := rfl

theorem parseLit_nl (d : Char) (l : List Char) : parseLit d (nlc :: l) = parseLit d l := by
  unfold parseLit; rw [skipWs_nl]

theorem parseLit_sp (d : Char) (l : List Char) : parseLit d (spc :: l) = parseLit d l := by
  unfold parseLit; rw [skipWs_sp]

theorem parseStr_nl (l : List Char) : parseStr (nlc :: l) = parseStr l := by
  unfold parseStr; rw [skipWs_nl]

theorem parseStr_sp (l : List Char) : parseStr (spc :: l) = parseStr l := by
  unfold parseStr; rw [skipWs_sp]

theorem parseObsItem_nl (l : List Char) : parseObsItem (nlc :: l) = parseObsItem l := by
  unfold parseObsItem; rw [parseLit_nl]

theorem parseObsItem_sp (l : List Char) : parseObsItem (spc :: l) = parseObsItem l := by
  unfold parseObsItem; rw [parseLit_sp]

theorem parseObsArr_nl (fuel : Nat) (l : List Char) :
    parseObsArr fuel (nlc :: l) = parseObsArr fuel l := by
  unfold parseObsArr; rw [parseLit_nl]

theorem parseObsArr_sp (fuel : Nat) (l : List Char) :
    parseObsArr fuel (spc :: l) = parseObsArr fuel l := by
  unfold parseObsArr; rw [parseLit_sp]

theorem parseEntry_nl (fuel : Nat) (l : List Char) :
    parseEntry fuel (nlc :: l) = parseEntry fuel l := by
  unfold parseEntry; rw [parseStr_nl]

theorem parseEntry_sp (fuel : Nat) (l : List Char) :
    parseEntry fuel (spc :: l) = parseEntry fuel l := by
  unfold parseEntry; rw [parseStr_sp]

theorem parseObsTail_nl (fuel : Nat) (l : List Char) :
    parseObsTail fuel (nlc :: l) = parseObsTail fuel l := by
  cases fuel with
  | zero => rfl
  | succ f => unfold parseObsTail; rw [parseLit_nl, parseLit_nl]

theorem parseObsTail_sp (fuel : Nat) (l : List Char) :
    parseObsTail fuel (spc :: l) = parseObsTail fuel l := by
  cases fuel with
  | zero => rfl
  | succ f => unfold parseObsTail; rw [parseLit_sp, parseLit_sp]

theorem parseEntriesTail_nl (afuel fuel : Nat) (l : List Char) :
    parseEntriesTail afuel fuel (nlc :: l) = parseEntriesTail afuel fuel l := by
  cases fuel with
  | zero => rfl
  | succ f => unfold parseEntriesTail; rw [parseLit_nl, parseLit_nl]

theorem parseEntriesTail_sp (afuel fuel : Nat) (l : List Char) :
    parseEntriesTail afuel fuel (spc :: l) = parseEntriesTail afuel fuel l := by
  cases fuel with
  | zero => rfl
  | succ f => unfold parseEntriesTail; rw [parseLit_sp, parseLit_sp]

theorem hexVal_hexDigitChar : ∀ n < 16, hexVal (hexDigitChar n) = some n := by decide

theorem psb_quote (l : List Char) : parseStringBody ('"' :: l) = some ([], l) := by
  simp [parseStringBody.eq_def]

theorem psb_esc {e c2 : Char} (l : List Char) (hu : ¬e = 'u') (he : escCharInv e = some c2) :
    parseStringBody ('\\' :: e :: l) =
      (parseStringBody l).map (fun p => (c2 :: p.1, p.2)) := by
  rw [parseStringBody.eq_def]
  dsimp only
  rw [if_neg (by decide : ¬(('\\' : Char) = '"')), if_pos (rfl : ('\\' : Char) = '\\'),
    if_neg hu, he]

theorem psb_u {h1 h2 h3 h4 : Char} {a b c4 d : Nat} {ch : Char} (l : List Char)
    (e1 : hexVal h1 = some a) (e2 : hexVal h2 = some b) (e3 : hexVal h3 = some c4)
    (e4 : hexVal h4 = some d)
    (hm : mkUnicode (((a * 16 + b) * 16 + c4) * 16 + d) = some ch) :
    parseStringBody ('\\' :: 'u' :: h1 :: h2 :: h3 :: h4 :: l) =
      (parseStringBody l).map (fun p => (ch :: p.1, p.2)) := by
  rw [parseStringBody.eq_def]
  dsimp only
  rw [if_neg (by decide : ¬(('\\' : Char) = '"')), if_pos (rfl : ('\\' : Char) = '\\'),
    if_pos (rfl : ('u' : Char) = 'u'), e1, e2, e3, e4]
  dsimp only
  rw [hm]

theorem psb_plain {c : Char} (l : List Char) (hq : ¬c = '"') (hb : ¬c = '\\')
    (hc : ¬c.toNat < 32) :
    parseStringBody (c :: l) = (parseStringBody l).map (fun p => (c :: p.1, p.2)) := by
  rw [parseStringBody.eq_def]
  dsimp only
  rw [if_neg hq, if_neg hb, if_neg hc]

/-- Unescaping inverts `QuoteJSONString` escaping, one string body at a time. -/
theorem parseStringBody_escape (l : List Char) (rest : List Char) :
    parseStringBody (escapeList l ++ '"' :: rest) = some (l, rest) := by
  induction l with
  | nil => exact psb_quote rest
  | cons c cs ih =>
    show parseStringBody ((escapeChar c ++ escapeList cs) ++ '"' :: rest) = _
    rw [List.append_assoc]
    by_cases h1 : c = '"'
    · subst h1
      rw [show escapeChar '"' = ['\\', '"'] from rfl]
      rw [show (['\\', '"'] : List Char) ++ (escapeList cs ++ '"' :: rest) =
          '\\' :: '"' :: (escapeList cs ++ '"' :: rest) from rfl]
      rw [psb_esc _ (by decide) (by decide : escCharInv '"' = some '"'), ih]
      rfl
    · by_cases h2 : c = '\\'
      · subst h2
        rw [show escapeChar '\\' = ['\\', '\\'] from rfl]
        rw [show (['\\', '\\'] : List Char) ++ (escapeList cs ++ '"' :: rest) =
            '\\' :: '\\' :: (escapeList cs ++ '"' :: rest) from rfl]
        rw [psb_esc _ (by decide) (by decide : escCharInv '\\' = some '\\'), ih]
        rfl
      · by_cases h3 : c = Char.ofNat 8
        · subst h3
          rw [show escapeChar (Char.ofNat 8) = ['\\', 'b'] from rfl]
          rw [show (['\\', 'b'] : List Char) ++ (escapeList cs ++ '"' :: rest) =
              '\\' :: 'b' :: (escapeList cs ++ '"' :: rest) from rfl]
          rw [psb_esc _ (by decide) (by decide : escCharInv 'b' = some (Char.ofNat 8)), ih]
          rfl
        · by_cases h4 : c = '\t'
          · subst h4
            rw [show escapeChar '\t' = ['\\', 't'] from rfl]
            rw [show (['\\', 't'] : List Char) ++ (escapeList cs ++ '"' :: rest) =
                '\\' :: 't' :: (escapeList cs ++ '"' :: rest) from rfl]
            rw [psb_esc _ (by decide) (by decide : escCharInv 't' = some '\t'), ih]
            rfl
          · by_cases h5 : c = '\n'
            · subst h5
              rw [show escapeChar '\n' = ['\\', 'n'] from rfl]
              rw [show (['\\', 'n'] : List Char) ++ (escapeList cs ++ '"' :: rest) =
                  '\\' :: 'n' :: (escapeList cs ++ '"' :: rest) from rfl]
              rw [psb_esc _ (by decide) (by decide : escCharInv 'n' = some '\n'), ih]
              rfl
            · by_cases h6 : c = Char.ofNat 12
              · subst h6
                rw [show escapeChar (Char.ofNat 12) = ['\\', 'f'] from rfl]
                rw [show (['\\', 'f'] : List Char) ++ (escapeList cs ++ '"' :: rest) =
                    '\\' :: 'f' :: (escapeList cs ++ '"' :: rest) from rfl]
                rw [psb_esc _ (by decide) (by decide : escCharInv 'f' = some (Char.ofNat 12)), ih]
                rfl
              · by_cases h7 : c = '\r'
                · subst h7
                  rw [show escapeChar '\r' = ['\\', 'r'] from rfl]
                  rw [show (['\\', 'r'] : List Char) ++ (escapeList cs ++ '"' :: rest) =
                      '\\' :: 'r' :: (escapeList cs ++ '"' :: rest) from rfl]
                  rw [psb_esc _ (by decide) (by decide : escCharInv 'r' = some '\r'), ih]
                  rfl
                · by_cases h8 : c.toNat < 32
                  · have e1 : hexVal (hexDigitChar (c.toNat / 16)) = some (c.toNat / 16) :=
                      hexVal_hexDigitChar _ (by omega)
                    have e2 : hexVal (hexDigitChar (c.toNat % 16)) = some (c.toNat % 16) :=
                      hexVal_hexDigitChar _ (Nat.mod_lt _ (by norm_num))
                    have e0 : hexVal '0' = some 0 := by decide
                    have hmk : mkUnicode (((0 * 16 + 0) * 16 + c.toNat / 16) * 16 + c.toNat % 16) =
                        some c := by
                      have hv : ((0 * 16 + 0) * 16 + c.toNat / 16) * 16 + c.toNat % 16 = c.toNat := by
                        omega
                      rw [hv, mkUnicode, if_pos (Or.inl (by omega)), Char.ofNat_toNat]
                    have hesc : escapeChar c =
                        ['\\', 'u', '0', '0', hexDigitChar (c.toNat / 16), hexDigitChar (c.toNat % 16)] := by
                      rw [escapeChar, if_neg h1, if_neg h2, if_neg h3, if_neg h4, if_neg h5,
                        if_neg h6, if_neg h7, if_pos h8]
                    rw [hesc]
                    rw [show (['\\', 'u', '0', '0', hexDigitChar (c.toNat / 16),
                        hexDigitChar (c.toNat % 16)] : List Char) ++ (escapeList cs ++ '"' :: rest) =
                        '\\' :: 'u' :: '0' :: '0' :: hexDigitChar (c.toNat / 16) ::
                        hexDigitChar (c.toNat % 16) :: (escapeList cs ++ '"' :: rest) from rfl]
                    rw [psb_u _ e0 e0 e1 e2 hmk, ih]
                    rfl
                  · have hesc : escapeChar c = [c] := by
                      rw [escapeChar, if_neg h1, if_neg h2, if_neg h3, if_neg h4, if_neg h5,
                        if_neg h6, if_neg h7, if_neg h8]
                    rw [hesc]
                    rw [show ([c] : List Char) ++ (escapeList cs ++ '"' :: rest) =
                        c :: (escapeList cs ++ '"' :: rest) from rfl]
                    rw [psb_plain _ h1 h2 h8, ih]
                    rfl

theorem skipWs_not_ws {c : Char} (l : List Char) (h : isWsChar c = false) :
    skipWs (c :: l) = c :: l := by
  simp [skipWs, h]

theorem parseLit_self (c : Char) (l : List Char) (h : isWsChar c = false) :
    parseLit c (c :: l) = some l := by
  unfold parseLit
  rw [skipWs_not_ws l h]
  dsimp only
  rw [if_pos rfl]

theorem parseLit_ne {c : Char} (d : Char) (l : List Char) (hws : isWsChar c = false)
    (h : ¬c = d) : parseLit d (c :: l) = none := by
  unfold parseLit
  rw [skipWs_not_ws l hws]
  dsimp only
  rw [if_neg h]

theorem parseLit_lbrace (l : List Char) : parseLit lbrace (lbrace :: l) = some l :=
  parseLit_self _ _ (by decide)

theorem parseLit_rbrace (l : List Char) : parseLit rbrace (rbrace :: l) = some l :=
  parseLit_self _ _ (by decide)

theorem parseLit_colon (l : List Char) : parseLit ':' (':' :: l) = some l :=
  parseLit_self _ _ (by decide)

theorem parseLit_comma (l : List Char) : parseLit ',' (',' :: l) = some l :=
  parseLit_self _ _ (by decide)

theorem parseLit_lbrack (l : List Char) : parseLit '[' ('[' :: l) = some l :=
  parseLit_self _ _ (by decide)

theorem parseLit_rbrack (l : List Char) : parseLit ']' (']' :: l) = some l :=
  parseLit_self _ _ (by decide)

theorem parseLit_rbrack_at_lbrace (l : List Char) : parseLit ']' (lbrace :: l) = none :=
  parseLit_ne _ _ (by decide) (by decide)

theorem parseLit_rbrack_at_comma (l : List Char) : parseLit ']' (',' :: l) = none :=
  parseLit_ne _ _ (by decide) (by decide)

theorem parseLit_rbrace_at_quote (l : List Char) : parseLit rbrace ('"' :: l) = none :=
  parseLit_ne _ _ (by decide) (by decide)

theorem parseLit_rbrace_at_comma (l : List Char) : parseLit rbrace (',' :: l) = none :=
  parseLit_ne _ _ (by decide) (by decide)

/-- Parsing inverts quoting. -/
theorem parseStr_quote (s : String) (rest : List Char) :
    parseStr (quoteStr s ++ rest) = some (s.data, rest) := by
  show parseStr ('"' :: (escapeList s.data ++ ['"']) ++ rest) = _
  unfold parseStr
  rw [show skipWs ('"' :: (escapeList s.data ++ ['"']) ++ rest) =
      '"' :: ((escapeList s.data ++ ['"']) ++ rest) from rfl]
  dsimp only
  rw [if_pos rfl, List.append_assoc]
  simpa using parseStringBody_escape s.data rest

theorem string_mk_data (s : String) : String.mk s.data = s := rfl

/-- Parsing inverts the serialisation of one observation record. -/
theorem parseObsItem_obsChars (o : Obs) (rest : List Char) :
    parseObsItem (obsChars o ++ rest) = some (o, rest) := by
  unfold parseObsItem obsChars
  simp only [List.cons_append, List.append_assoc]
  rw [parseLit_lbrace]
  simp only [Option.bind_eq_bind, Option.some_bind]
  rw [parseStr_nl, parseStr_sp, parseStr_sp, parseStr_sp, parseStr_sp, parseStr_sp, parseStr_sp,
    parseStr_quote]
  simp only [Option.bind_eq_bind, Option.some_bind, if_true]
  rw [parseLit_colon]
  simp only [Option.bind_eq_bind, Option.some_bind]
  rw [parseStr_sp, parseStr_quote]
  simp only [Option.bind_eq_bind, Option.some_bind]
  rw [parseLit_comma]
  simp only [Option.bind_eq_bind, Option.some_bind]
  rw [parseStr_nl, parseStr_sp, parseStr_sp, parseStr_sp, parseStr_sp, parseStr_sp, parseStr_sp,
    parseStr_quote]
  simp only [Option.bind_eq_bind, Option.some_bind, if_true]
  rw [parseLit_colon]
  simp only [Option.bind_eq_bind, Option.some_bind]
  rw [parseStr_sp, parseStr_quote]
  simp only [Option.bind_eq_bind, Option.some_bind]
  rw [parseLit_nl, parseLit_sp, parseLit_sp, parseLit_sp, parseLit_sp, parseLit_rbrace]
  simp only [Option.bind_eq_bind, Option.some_bind, string_mk_data, List.nil_append]

theorem parseLit_rbrack_at_obs (o : Obs) (l : List Char) :
    parseLit ']' (obsChars o ++ l) = none := by
  unfold obsChars
  simp only [List.cons_append]
  exact parseLit_rbrack_at_lbrace _

/-- Parsing inverts the serialisation of the tail of an observation array. -/
theorem parseObsTail_arrTail (os : List Obs) :
    ∀ (fuel : Nat), os.length < fuel → ∀ (rest : List Char),
      parseObsTail fuel (arrTailChars os ++ nlc :: spc :: spc :: ']' :: rest) =
        some (os, rest) := by
  induction os with
  | nil =>
    intro fuel hf rest
    cases fuel with
    | zero => omega
    | succ f =>
      show parseObsTail (f + 1) (nlc :: spc :: spc :: ']' :: rest) = some ([], rest)
      rw [parseObsTail_nl, parseObsTail_sp, parseObsTail_sp]
      unfold parseObsTail
      rw [parseLit_rbrack]
  | cons o os ih =>
    intro fuel hf rest
    cases fuel with
    | zero => omega
    | succ f =>
      show parseObsTail (f + 1)
        ((',' :: nlc :: spc :: spc :: spc :: spc :: obsChars o ++ arrTailChars os) ++
          nlc :: spc :: spc :: ']' :: rest) = some (o :: os, rest)
      simp only [List.cons_append, List.append_assoc]
      unfold parseObsTail
      rw [parseLit_rbrack_at_comma, parseLit_comma]
      dsimp only
      rw [parseObsItem_nl, parseObsItem_sp, parseObsItem_sp, parseObsItem_sp, parseObsItem_sp,
        parseObsItem_obsChars]
      dsimp only
      rw [ih f (by simp at hf; omega) rest]

/-- Parsing inverts the serialisation of an observation array. -/
theorem parseObsArr_arrChars (os : List Obs) (fuel : Nat) (hf : os.length ≤ fuel)
    (rest : List Char) : parseObsArr fuel (arrChars os ++ rest) = some (os, rest) := by
  cases os with
  | nil =>
    show parseObsArr fuel ('[' :: ']' :: rest) = some ([], rest)
    unfold parseObsArr
    rw [parseLit_lbrack]
    dsimp only
    rw [parseLit_rbrack]
  | cons o os =>
    show parseObsArr fuel
      ('[' :: nlc :: spc :: spc :: spc :: spc ::
        (obsChars o ++ arrTailChars os ++ [nlc, spc, spc, ']']) ++ rest) = some (o :: os, rest)
    simp only [List.cons_append, List.append_assoc]
    unfold parseObsArr
    rw [parseLit_lbrack]
    dsimp only
    rw [parseLit_nl, parseLit_sp, parseLit_sp, parseLit_sp, parseLit_sp, parseLit_rbrack_at_obs]
    dsimp only
    rw [parseObsItem_nl, parseObsItem_sp, parseObsItem_sp, parseObsItem_sp, parseObsItem_sp]
    simp only [List.nil_append]
    rw [parseObsItem_obsChars]
    dsimp only
    rw [parseObsTail_arrTail os fuel (by simp at hf; omega) rest]

/-- Parsing inverts the serialisation of one ledger entry. -/
theorem parseEntry_entryChars (e : String × List Obs) (fuel : Nat) (hf : e.2.length ≤ fuel)
    (rest : List Char) : parseEntry fuel (entryChars e ++ rest) = some (e, rest) := by
  obtain ⟨k, os⟩ := e
  unfold parseEntry entryChars
  simp only [List.cons_append, List.append_assoc]
  rw [parseStr_quote]
  simp only [Option.bind_eq_bind, Option.some_bind]
  rw [parseLit_colon]
  simp only [Option.bind_eq_bind, Option.some_bind]
  rw [parseObsArr_sp, parseObsArr_arrChars os fuel hf rest]
  simp only [Option.bind_eq_bind, Option.some_bind, string_mk_data]

theorem parseLit_rbrace_at_entry (e : String × List Obs) (l : List Char) :
    parseLit rbrace (entryChars e ++ l) = none := by
  unfold entryChars quoteStr
  simp only [List.cons_append]
  exact parseLit_rbrace_at_quote _

theorem parseEntry_at_entry_nl_sp (fuel : Nat) (l : List Char) :
    parseEntry fuel (nlc :: spc :: spc :: l) = parseEntry fuel l := by
  rw [parseEntry_nl, parseEntry_sp, parseEntry_sp]

/-- Parsing inverts the serialisation of the tail of the entry list. -/
theorem parseEntriesTail_ledTail (afuel : Nat) (es : Ledger) :
    ∀ (fuel : Nat), es.length < fuel → (∀ e ∈ es, e.2.length ≤ afuel) → ∀ (rest : List Char),
      parseEntriesTail afuel fuel (ledTailChars es ++ nlc :: rbrace :: rest) =
        some (es, rest) := by
  induction es with
  | nil =>
    intro fuel hf _ rest
    cases fuel with
    | zero => omega
    | succ f =>
      show parseEntriesTail afuel (f + 1) (nlc :: rbrace :: rest) = some ([], rest)
      rw [parseEntriesTail_nl]
      unfold parseEntriesTail
      rw [parseLit_rbrace]
  | cons e es ih =>
    intro fuel hf hos rest
    cases fuel with
    | zero => omega
    | succ f =>
      show parseEntriesTail afuel (f + 1)
        ((',' :: nlc :: spc :: spc :: entryChars e ++ ledTailChars es) ++
          nlc :: rbrace :: rest) = some (e :: es, rest)
      simp only [List.cons_append, List.append_assoc]
      unfold parseEntriesTail
      rw [parseLit_rbrace_at_comma, parseLit_comma]
      dsimp only
      rw [parseEntry_nl, parseEntry_sp, parseEntry_sp,
        parseEntry_entryChars e afuel (hos e (List.mem_cons_self e es)) _]
      dsimp only
      rw [ih f (by simp at hf; omega) (fun x hx => hos x (List.mem_cons_of_mem e hx)) rest]

theorem data_string_mk (l : List Char) : (String.mk l).data = l := rfl

theorem arrTailChars_len (os : List Obs) : os.length ≤ (arrTailChars os).length := by
  induction os with
  | nil => simp [arrTailChars]
  | cons o os ih =>
    show os.length + 1 ≤ (',' :: nlc :: spc :: spc :: spc :: spc :: obsChars o ++ arrTailChars os).length
    simp only [List.cons_append, List.length_cons, List.length_append]
    omega

theorem arrChars_len (os : List Obs) : os.length ≤ (arrChars os).length := by
  cases os with
  | nil => simp [arrChars]
  | cons o os =>
    have := arrTailChars_len os
    show os.length + 1 ≤
      ('[' :: nlc :: spc :: spc :: spc :: spc ::
        (obsChars o ++ arrTailChars os ++ [nlc, spc, spc, ']'])).length
    simp only [List.length_cons, List.length_append]
    omega

theorem entryChars_len (e : String × List Obs) : e.2.length ≤ (entryChars e).length := by
  have := arrChars_len e.2
  show e.2.length ≤ (quoteStr e.1 ++ ':' :: spc :: arrChars e.2).length
  simp only [List.length_append, List.length_cons]
  omega

theorem ledTailChars_len (es : Ledger) : es.length ≤ (ledTailChars es).length := by
  induction es with
  | nil => simp [ledTailChars]
  | cons e es ih =>
    show es.length + 1 ≤ (',' :: nlc :: spc :: spc :: entryChars e ++ ledTailChars es).length
    simp only [List.cons_append, List.length_cons, List.length_append]
    omega

theorem ledTailChars_mem_len (es : Ledger) :
    ∀ e ∈ es, e.2.length ≤ (ledTailChars es).length := by
  induction es with
  | nil => intro e he; cases he
  | cons x xs ih =>
    intro e he
    have hlen : (ledTailChars (x :: xs)).length =
        4 + (entryChars x).length + (ledTailChars xs).length := by
      show (',' :: nlc :: spc :: spc :: entryChars x ++ ledTailChars xs).length = _
      simp only [List.cons_append, List.length_cons, List.length_append]
      omega
    rcases List.mem_cons.mp he with rfl | hmem
    · have := entryChars_len e
      omega
    · have := ih e hmem
      omega

/-- `JSON.parse` inverts `JSON.stringify(·, null, 2)` on every ledger: the shared
round-trip core of the History Store. -/
theorem parseLedger_stringify (L : Ledger) :
    parseLedger (stringifyLedger L) = some L := by
  cases L with
  | nil =>
    show parseLedger (String.mk [lbrace, rbrace]) = some []
    unfold parseLedger
    rw [data_string_mk]
    dsimp only
    rw [show parseLit lbrace [lbrace, rbrace] = some [rbrace] from parseLit_lbrace _]
    dsimp only
    rw [show parseLit rbrace [rbrace] = some [] from parseLit_rbrace _]
    dsimp only
    simp [skipWs]
  | cons e es =>
    show parseLedger (String.mk
      (lbrace :: nlc :: spc :: spc :: (entryChars e ++ ledTailChars es ++ [nlc, rbrace]))) =
      some (e :: es)
    unfold parseLedger
    rw [data_string_mk]
    dsimp only
    simp only [List.cons_append, List.append_assoc]
    rw [parseLit_lbrace]
    dsimp only
    rw [parseLit_nl, parseLit_sp, parseLit_sp, parseLit_rbrace_at_entry]
    dsimp only
    rw [parseEntry_nl, parseEntry_sp, parseEntry_sp]
    have hbound1 : e.2.length ≤
        (lbrace :: nlc :: spc :: spc ::
          (entryChars e ++ (ledTailChars es ++ [nlc, rbrace]))).length + 1 := by
      have h1 := entryChars_len e
      simp only [List.length_cons, List.length_append]
      omega
    rw [parseEntry_entryChars e _ hbound1 _]
    dsimp only
    rw [show (ledTailChars es ++ [nlc, rbrace] : List Char) =
        ledTailChars es ++ nlc :: rbrace :: [] from rfl]
    have hbound2 : es.length <
        (lbrace :: nlc :: spc :: spc ::
          (entryChars e ++ (ledTailChars es ++ [nlc, rbrace]))).length + 1 := by
      have h2 := ledTailChars_len es
      simp only [List.length_cons, List.length_append]
      omega
    have hbound3 : ∀ x ∈ es, x.2.length ≤
        (lbrace :: nlc :: spc :: spc ::
          (entryChars e ++ (ledTailChars es ++ [nlc, rbrace]))).length + 1 := by
      intro x hx
      have h3 := ledTailChars_mem_len es x hx
      simp only [List.length_cons, List.length_append]
      omega
    rw [parseEntriesTail_ledTail _ es _ hbound2 hbound3 []]
    dsimp only
    simp [skipWs]

/-! ## C6 — History Store round trip -/

/-- C6: `load()` after `save(L)` returns a structure equal to `L`, and saving the
loaded structure reproduces the persisted bytes unchanged. -/
theorem history_store_roundtrip (L : Ledger) :
    (loadPriceHistory (savePriceHistory L)).2 = some L ∧
    (loadPriceHistory (savePriceHistory L)).1 = savePriceHistory L ∧
    savePriceHistory ((loadPriceHistory (savePriceHistory L)).2.getD []) = savePriceHistory L := by
  unfold loadPriceHistory savePriceHistory
  simp [parseLedger_stringify]

/-! ## Run-level helper lemmas -/

theorem stepV2_shape (st : RunState) (it : Product × ProductEnv) :
    (∃ o, (stepV2 st it).outcomes = st.outcomes ++ [o]) ∧
    (stepV2 st it).closed = st.closed ∧ (stepV2 st it).errored = st.errored := by
  obtain ⟨p, e⟩ := it
  rcases hf : e.fetch with _ | _ | ⟨w, f⟩
  · exact ⟨⟨Outcome.failed, by simp [stepV2, hf]⟩, by simp [stepV2, hf], by simp [stepV2, hf]⟩
  · exact ⟨⟨Outcome.failed, by simp [stepV2, hf]⟩, by simp [stepV2, hf], by simp [stepV2, hf]⟩
  · cases hok : (logPrice st.file e.persistFails p.name e.timestamp (normalize w f)).ok
    · exact ⟨⟨Outcome.failed, by simp [stepV2, hf, hok]⟩,
        by simp [stepV2, hf, hok], by simp [stepV2, hf, hok]⟩
    · exact ⟨⟨Outcome.ok (normalize w f)
          (alertCondition (jsParseFloat (stripCommas (normalize w f))) p.targetPrice),
          by simp [stepV2, hf, hok]⟩,
        by simp [stepV2, hf, hok], by simp [stepV2, hf, hok]⟩

theorem foldl_stepV2_shape (items : List (Product × ProductEnv)) :
    ∀ st : RunState,
      (items.foldl stepV2 st).outcomes.length = st.outcomes.length + items.length ∧
      (items.foldl stepV2 st).closed = st.closed ∧
      (items.foldl stepV2 st).errored = st.errored := by
  induction items with
  | nil => intro st; simp
  | cons it rest ih =>
    intro st
    obtain ⟨⟨o, ho⟩, hc, he⟩ := stepV2_shape st it
    obtain ⟨h1, h2, h3⟩ := ih (stepV2 st it)
    refine ⟨?_, by rw [List.foldl_cons, h2, hc], by rw [List.foldl_cons, h3, he]⟩
    rw [List.foldl_cons, h1, ho]
    simp [Nat.add_assoc, Nat.add_comm 1 rest.length]

theorem stepV1_shape (st : RunState) (it : Product × FetchOutcome) :
    (∃ o, (stepV1 st it).outcomes = st.outcomes ++ [o]) ∧
    (stepV1 st it).closed = st.closed ∧ (stepV1 st it).errored = st.errored := by
  obtain ⟨p, e⟩ := it
  rcases e with _ | _ | ⟨w, f⟩
  · exact ⟨⟨Outcome.failed, rfl⟩, rfl, rfl⟩
  · exact ⟨⟨Outcome.failed, rfl⟩, rfl, rfl⟩
  · exact ⟨⟨Outcome.ok (normalize w f)
        (alertCondition (jsParseFloat (stripCommas (normalize w f))) p.targetPrice), rfl⟩,
      rfl, rfl⟩

theorem foldl_stepV1_closed (items : List (Product × FetchOutcome)) :
    ∀ st : RunState, (items.foldl stepV1 st).closed = st.closed := by
  induction items with
  | nil => intro st; rfl
  | cons it rest ih =>
    intro st
    rw [List.foldl_cons, ih (stepV1 st it), (stepV1_shape st it).2.1]

theorem runPart002_no_goto (items : List (Product × P2Fetch)) :
    ∀ st : P2State, (∀ it ∈ items, it.2 ≠ P2Fetch.gotoFail) →
      (runPart002 items st).closed = st.closed + 1 ∧
      (runPart002 items st).errored = st.errored := by
  induction items with
  | nil => intro st _; exact ⟨rfl, rfl⟩
  | cons it rest ih =>
    intro st hgoto
    obtain ⟨p, e⟩ := it
    rcases e with _ | _ | t
    · exact absurd rfl (hgoto (p, P2Fetch.gotoFail) (List.mem_cons_self _ _))
    · exact ih _ (fun x hx => hgoto x (List.mem_cons_of_mem _ hx))
    · exact ih _ (fun x hx => hgoto x (List.mem_cons_of_mem _ hx))

/-! ## C2 — persistence failure handling -/

/-- C2 counterexample: persistence (`logPrice` I/O) fails for the first of two
products, yet the second product is still processed, the run does not propagate
any error, and the browser is closed: the claimed run-fatality does not hold. -/
theorem persistence_failure_not_fatal :
    (checkPrices none false
      [(prodA, ⟨FetchOutcome.fragments (some "10") (some "00"), true, "t1"⟩),
       (prodC, ⟨FetchOutcome.fragments (some "20") (some "00"), false, "t2"⟩)]).outcomes =
      [Outcome.failed, Outcome.ok "20.00" false] ∧
    (checkPrices none false
      [(prodA, ⟨FetchOutcome.fragments (some "10") (some "00"), true, "t1"⟩),
       (prodC, ⟨FetchOutcome.fragments (some "20") (some "00"), false, "t2"⟩)]).errored = false ∧
    (checkPrices none false
      [(prodA, ⟨FetchOutcome.fragments (some "10") (some "00"), true, "t1"⟩),
       (prodC, ⟨FetchOutcome.fragments (some "20") (some "00"), false, "t2"⟩)]).closed = 1 := by
  refine ⟨by decide, by decide, by decide⟩

/-- C2 amended: a History Store persistence failure while recording is caught at
the product boundary like any other per-product failure: the product is marked
failed, every configured product still receives an outcome, and no error
propagates to the caller. -/
theorem persistence_failure_isolated :
    (∀ (file0 : Option String) (items : List (Product × ProductEnv)),
      (checkPrices file0 false items).errored = false ∧
      (checkPrices file0 false items).outcomes.length = items.length) ∧
    (∀ (st : RunState) (p : Product) (e : ProductEnv) (w f : Option String),
      e.fetch = FetchOutcome.fragments w f → e.persistFails = true →
      (stepV2 st (p, e)).outcomes = st.outcomes ++ [Outcome.failed] ∧
      (stepV2 st (p, e)).errored = st.errored ∧
      (stepV2 st (p, e)).file = st.file) := by
  constructor
  · intro file0 items
    unfold checkPrices
    rw [if_neg (by decide)]
    obtain ⟨h1, _, h3⟩ := foldl_stepV2_shape items (initState file0)
    exact ⟨h3, by simpa [initState] using h1⟩
  · intro st p e w f hf hp
    refine ⟨?_, ?_, ?_⟩ <;> simp [stepV2, hf, logPrice, hp]

/-- Witness for the amended C2 at a concrete persistence failure. -/
theorem persistence_failure_isolated_witness :
    (stepV2 (initState none)
      (prodA, ⟨FetchOutcome.fragments (some "10") (some "00"), true, "t1"⟩)).outcomes =
      [Outcome.failed] := by
  have h := persistence_failure_isolated.2 (initState none) prodA
    ⟨FetchOutcome.fragments (some "10") (some "00"), true, "t1"⟩
    (some "10") (some "00") rfl rfl
  exact h.1.trans rfl

/-! ## C8 — browser lifecycle -/

/-- C8 counterexample: a navigation failure in the part_002 variant terminates the
run with the browser never closed — the resource is not released on every exit
path. -/
theorem browser_not_closed_on_propagated_error :
    (checkPricesPart002 false [(prodA, P2Fetch.gotoFail)]).closed = 0 ∧
    (checkPricesPart002 false [(prodA, P2Fetch.gotoFail)]).errored = true := by
  refine ⟨by decide, by decide⟩

/-- C8 amended: the browser is closed exactly once whenever the per-product loop
completes — always, in both price-check.ts variants, since every per-product
failure is caught; and in the part_002 variant whenever no navigation failure
occurs.  A propagated error (page-creation failure before the loop, or a part_002
navigation failure) ends the run without the close — there is no `finally`. -/
theorem browser_closed_amended :
    (∀ (file0 : Option String) (items : List (Product × ProductEnv)),
        (checkPrices file0 false items).closed = 1) ∧
    (∀ items : List (Product × FetchOutcome), (checkPricesEarly false items).closed = 1) ∧
    (∀ items : List (Product × P2Fetch),
        (∀ it ∈ items, it.2 ≠ P2Fetch.gotoFail) →
        (checkPricesPart002 false items).closed = 1) := by
  refine ⟨fun file0 items => ?_, fun items => ?_, fun items h => ?_⟩
  · unfold checkPrices
    rw [if_neg (by decide)]
    have hc := (foldl_stepV2_shape items (initState file0)).2.1
    simp [initState] at hc
    simpa [initState] using hc
  · unfold checkPricesEarly
    rw [if_neg (by decide)]
    have hc := foldl_stepV1_closed items (initState none)
    simp [initState] at hc
    simpa [initState] using hc
  · unfold checkPricesPart002
    rw [if_neg (by decide)]
    simpa using (runPart002_no_goto items ⟨[], [], 0, false⟩ h).1

/-- Witness for the amended C8: a non-failing part_002 run closes the browser. -/
theorem browser_closed_amended_witness :
    (checkPricesPart002 false [(prodA, P2Fetch.content (some "5"))]).closed = 1 :=
  browser_closed_amended.2.2 [(prodA, P2Fetch.content (some "5"))] (by decide)

/-! ## C9 — ledger I/O schedule -/

/-- C9 counterexample: a run over two successfully scraped products performs two
ledger loads and two saves — one full load-append-save round trip per product —
not one load at run start and one save at run end. -/
theorem ledger_reloaded_per_product :
    (checkPrices none false
      [(prodA, ⟨FetchOutcome.fragments (some "10") (some "00"), false, "t1"⟩),
       (prodC, ⟨FetchOutcome.fragments (some "20") (some "00"), false, "t2"⟩)]).loads = 2 ∧
    (checkPrices none false
      [(prodA, ⟨FetchOutcome.fragments (some "10") (some "00"), false, "t1"⟩),
       (prodC, ⟨FetchOutcome.fragments (some "20") (some "00"), false, "t2"⟩)]).saves = 2 ∧
    ¬(checkPrices none false
      [(prodA, ⟨FetchOutcome.fragments (some "10") (some "00"), false, "t1"⟩),
       (prodC, ⟨FetchOutcome.fragments (some "20") (some "00"), false, "t2"⟩)]).loads = 1 := by
  refine ⟨by decide, by decide, by decide⟩

theorem logPrice_good (fs : Option String) (name ts price : String)
    (h : fs = none ∨ ∃ M, fs = some (stringifyLedger M)) :
    ∃ M, loadPriceHistory fs = (some (stringifyLedger M), some M) ∧
      logPrice fs false name ts price =
        ⟨some (stringifyLedger (appendObs M name ⟨ts, price⟩)), true, 1, 1⟩ := by
  rcases h with rfl | ⟨M, rfl⟩
  · exact ⟨[], rfl, by simp [logPrice, loadPriceHistory, savePriceHistory]⟩
  · exact ⟨M, by simp [loadPriceHistory, parseLedger_stringify],
      by simp [logPrice, loadPriceHistory, parseLedger_stringify, savePriceHistory]⟩

theorem stepV2_counts (st : RunState) (p : Product) (e : ProductEnv) (w f : Option String)
    (hfe : e.fetch = FetchOutcome.fragments w f) (hp : e.persistFails = false)
    (hfile : st.file = none ∨ ∃ M, st.file = some (stringifyLedger M)) :
    (stepV2 st (p, e)).loads = st.loads + 1 ∧ (stepV2 st (p, e)).saves = st.saves + 1 ∧
      ((stepV2 st (p, e)).file = none ∨
        ∃ M, (stepV2 st (p, e)).file = some (stringifyLedger M)) := by
  obtain ⟨M, _, hlog⟩ := logPrice_good st.file p.name e.timestamp (normalize w f) hfile
  refine ⟨?_, ?_, Or.inr ⟨appendObs M p.name ⟨e.timestamp, normalize w f⟩, ?_⟩⟩ <;>
    simp [stepV2, hfe, hp, hlog]

theorem foldl_stepV2_counts (items : List (Product × ProductEnv)) :
    ∀ st : RunState,
      (∀ it ∈ items, it.2.fetch.isFragments = true ∧ it.2.persistFails = false) →
      (st.file = none ∨ ∃ M, st.file = some (stringifyLedger M)) →
      (items.foldl stepV2 st).loads = st.loads + items.length ∧
      (items.foldl stepV2 st).saves = st.saves + items.length := by
  induction items with
  | nil => intro st _ _; simp
  | cons it rest ih =>
    intro st hcond hfile
    obtain ⟨p, e⟩ := it
    obtain ⟨hfrag, hp⟩ := hcond (p, e) (List.mem_cons_self _ _)
    rcases hfe : e.fetch with _ | _ | ⟨w, f⟩ <;>
      rw [hfe] at hfrag
    · simp [FetchOutcome.isFragments] at hfrag
    · simp [FetchOutcome.isFragments] at hfrag
    · obtain ⟨hl, hs, hfile2⟩ := stepV2_counts st p e w f hfe hp hfile
      obtain ⟨ihl, ihs⟩ := ih (stepV2 st (p, e))
        (fun x hx => hcond x (List.mem_cons_of_mem _ hx)) hfile2
      constructor
      · rw [List.foldl_cons, ihl, hl]; simp [List.length_cons]; omega
      · rw [List.foldl_cons, ihs, hs]; simp [List.length_cons]; omega

/-- C9 amended: the ledger document is loaded from and saved to the persistence
medium once per successfully scraped product — `logPrice` performs a full
load-append-save round trip each time — rather than once per run; the document
is not held in memory across products. -/
theorem ledger_io_per_successful_product (items : List (Product × ProductEnv))
    (h : ∀ it ∈ items, it.2.fetch.isFragments = true ∧ it.2.persistFails = false) :
    (checkPrices none false items).loads = items.length ∧
    (checkPrices none false items).saves = items.length := by
  unfold checkPrices
  rw [if_neg (by decide)]
  obtain ⟨hl, hs⟩ := foldl_stepV2_counts items (initState none) h (Or.inl rfl)
  constructor
  · simpa [initState] using hl
  · simpa [initState] using hs

/-- Witness for the amended C9: one successful product, one load, one save. -/
theorem ledger_io_per_successful_product_witness :
    (checkPrices none false
      [(prodA, ⟨FetchOutcome.fragments (some "10") (some "00"), false, "t1"⟩)]).loads = 1 ∧
    (checkPrices none false
      [(prodA, ⟨FetchOutcome.fragments (some "10") (some "00"), false, "t1"⟩)]).saves = 1 :=
  ledger_io_per_successful_product
    [(prodA, ⟨FetchOutcome.fragments (some "10") (some "00"), false, "t1"⟩)] (by decide)

/-! ## C10 — unparseable price strings -/

theorem alertCondition_nan (t : Option ℚ) : alertCondition JsNum.nan t = false := by
  cases t <;> rfl

/-- C10: when the cleaned price string parses to `NaN`, the alert branch is
unreachable for every target price — no notification is dispatched — yet the
unparseable price string is still appended to the product's history and the
product counts as succeeded. -/
theorem nan_price_recorded_never_alerts (st : RunState) (p : Product) (e : ProductEnv)
    (w f : Option String)
    (hfe : e.fetch = FetchOutcome.fragments w f)
    (hp : e.persistFails = false)
    (hfile : st.file = none ∨ ∃ M, st.file = some (stringifyLedger M))
    (hnan : jsParseFloat (stripCommas (normalize w f)) = JsNum.nan) :
    (stepV2 st (p, e)).alerts = st.alerts ∧
    (stepV2 st (p, e)).outcomes = st.outcomes ++ [Outcome.ok (normalize w f) false] ∧
    ∃ M, loadPriceHistory st.file = (some (stringifyLedger M), some M) ∧
      (stepV2 st (p, e)).file =
        some (stringifyLedger (appendObs M p.name ⟨e.timestamp, normalize w f⟩)) ∧
      findSeq (appendObs M p.name ⟨e.timestamp, normalize w f⟩) p.name =
        findSeq M p.name ++ [⟨e.timestamp, normalize w f⟩] := by
  obtain ⟨M, hload, hlog⟩ := logPrice_good st.file p.name e.timestamp (normalize w f) hfile
  refine ⟨?_, ?_, M, hload, ?_, (findSeq_appendObs M p.name ⟨e.timestamp, normalize w f⟩).1⟩ <;>
    simp [stepV2, hfe, hp, hlog, hnan, alertCondition_nan]

/-- Witness for C10: fragment text `"abc"` yields price string `"abc.0"`, which is
recorded but never alerts, even with a target configured. -/
theorem nan_price_recorded_never_alerts_witness :
    (stepV2 (initState none)
      (prodB, ⟨FetchOutcome.fragments (some "abc") none, false, "t"⟩)).alerts = [] ∧
    (stepV2 (initState none)
      (prodB, ⟨FetchOutcome.fragments (some "abc") none, false, "t"⟩)).outcomes =
      [Outcome.ok "abc.0" false] := by
  have h := nan_price_recorded_never_alerts (initState none) prodB
    ⟨FetchOutcome.fragments (some "abc") none, false, "t"⟩ (some "abc") none
    rfl rfl (Or.inl rfl) (by decide)
  exact ⟨h.1, h.2.1⟩

/-! ## C1 — failure isolation across products -/

/-- C1: in the part_002 variant `page.goto` sits outside the per-product `try`,
so a navigation failure on the second of three products aborts the run before
the third is attempted; the same failure pattern in the main `checkPrices`
(price-check.ts) is caught at the product boundary and all three products
receive an outcome in input order. -/
theorem part002_navigation_aborts_run :
    (checkPricesPart002 false
      [(prodA, P2Fetch.content (some "10")), (prodB, P2Fetch.gotoFail),
       (prodC, P2Fetch.content (some "12"))]).attempted = ["A", "B"] ∧
    (checkPricesPart002 false
      [(prodA, P2Fetch.content (some "10")), (prodB, P2Fetch.gotoFail),
       (prodC, P2Fetch.content (some "12"))]).errored = true ∧
    (checkPricesPart002 false
      [(prodA, P2Fetch.content (some "10")), (prodB, P2Fetch.gotoFail),
       (prodC, P2Fetch.content (some "12"))]).closed = 0 ∧
    (checkPrices none false
      [(prodA, ⟨FetchOutcome.fragments (some "10") (some "50"), false, "t1"⟩),
       (prodB, ⟨FetchOutcome.gotoFail, false, "t2"⟩),
       (prodC, ⟨FetchOutcome.fragments (some "12") (some "99"), false, "t3"⟩)]).outcomes =
      [Outcome.ok "10.50" false, Outcome.failed, Outcome.ok "12.99" false] ∧
    (checkPrices none false
      [(prodA, ⟨FetchOutcome.fragments (some "10") (some "50"), false, "t1"⟩),
       (prodB, ⟨FetchOutcome.gotoFail, false, "t2"⟩),
       (prodC, ⟨FetchOutcome.fragments (some "12") (some "99"), false, "t3"⟩)]).errored =
      false := by
  refine ⟨by decide, by decide, by decide, by decide, by decide⟩

end PriceWatcher
